import Mathlib

/-!
# SimpleDemand: the example graph of the CnC framework

A shallow embedding of `examples/SimpleDemand` (`Main.c`, `SimpleDemand.c`,
`SimpleDemand_S.c`).  The three C functions that produce items or call the
runtime are embedded as functions that return the list of effects they issue,
in program order.  What the runtime hands back to them (the context created by
`SimpleDemand_create`, the buffer returned by `cncItemAlloc`) is an argument.
-/

set_option linter.unusedVariables false

namespace SimpleDemand

/-! ## Machine integers -/

/-- Value of a C `int` expression: two's complement, 32 bits, wrapping. -/
def wrapInt32 (x : Int) : Int := (x + 2147483648) % 4294967296 - 2147483648

/-- Value of an `s64` expression: two's complement, 64 bits, wrapping. -/
def wrapS64 (x : Int) : Int :=
  (x + 9223372036854775808) % 18446744073709551616 - 9223372036854775808

/-- Range of a C `int`. -/
def isInt32 (x : Int) : Prop := -2147483648 ≤ x ∧ x ≤ 2147483647

/-- Modelled from the spec: the range of a tag.  The header that declares
`cncTag_t` is not among the sources; the spec says tags are single signed
integers of fixed size, and the initializer passes its `s64` loop counter as
the tag, so a tag is a 64-bit signed integer. -/
def isTag (i : Int) : Prop := -9223372036854775808 ≤ i ∧ i ≤ 9223372036854775807

instance (x : Int) : Decidable (isInt32 x) := by unfold isInt32; infer_instance

instance (i : Int) : Decidable (isTag i) := by unfold isTag; infer_instance

/-! ## Effects of the user code -/

/-- One observable action of the user code, in program order.  `ctx` is the
context pointer the call is made on; a buffer is named by its address. -/
inductive Effect where
  /-- Call `cncPrescribe_S(tag, ctx)`. -/
  | cncPrescribe_S (tag : Int) (ctx : Nat)
  /-- Call `cncItemAlloc(size)`; `ret` is the pointer it returned, `none` for NULL. -/
  | cncItemAlloc (size : Nat) (ret : Option Nat)
  /-- Assignment `*buf = val` through a non-null pointer. -/
  | store (buf : Nat) (val : Int)
  /-- Assignment `*p = val` where `p` is NULL; the run ends here. -/
  | storeNull (val : Int)
  /-- Read of `*buf`, which yields `val`. -/
  | load (buf : Nat) (val : Int)
  /-- Call `printf(format, args...)`. -/
  | printf (format : String) (args : List Int)
  /-- Call `cncPut_X(buf, tag, ctx)`. -/
  | cncPut_X (buf : Nat) (tag : Int) (ctx : Nat)
  /-- Call `SimpleDemand_await(ctx)`. -/
  | SimpleDemand_await (ctx : Nat)
  deriving DecidableEq, Repr

/-- Size of a C `int` in bytes, the argument of both `cncItemAlloc` calls. -/
def sizeofInt : Nat := 4

/-! ## SimpleDemand.c -/

/-- The loop `for (_i = 0; _i < 10; _i++) cncPrescribe_S(_i, ctx);` entered
with the counter at `_i`. -/
def prescribeLoop (ctx : Nat) (_i : Int) : List Effect :=
  if _i < 10 then
    Effect.cncPrescribe_S _i ctx :: prescribeLoop ctx (wrapS64 (_i + 1))
  else
    []
termination_by (10 - _i).toNat
decreasing_by
  simp only [wrapS64]
  omega

/-- The function `SimpleDemand_cncInitialize(args, ctx)`.  `args` is `none` for
the null pointer; `X` is what `cncItemAlloc` returned. -/
def SimpleDemand_cncInitialize {Args : Type} (args : Option Args) (ctx : Nat)
    (X : Option Nat) : List Effect :=
  prescribeLoop ctx 0 ++
    Effect.cncItemAlloc sizeofInt X ::
      match X with
      | none => [Effect.storeNull (-1)]
      | some p =>
        [Effect.store p (-1), Effect.cncPut_X p 0 ctx, Effect.SimpleDemand_await ctx]

/-- Rendering of a `%d` conversion of an `int`. -/
def fmtD (x : Int) : String := toString x

/-- The function `SimpleDemand_cncFinalize(X, ctx)`: the text it writes to
standard output. -/
def SimpleDemand_cncFinalize (X : Int) (ctx : Nat) : String :=
  "final answer is " ++ fmtD X ++ ", expected 9.\n"

/-! ## SimpleDemand_S.c -/

/-- The function `SimpleDemand_S(i, X0, d, ctx)`.  `X1` is what `cncItemAlloc`
returned.  The value `2*X0` is computed in `int`, the tag `i + 1` in the tag
type. -/
def SimpleDemand_S (i : Int) (X0 : Int) (d : Int) (ctx : Nat) (X1 : Option Nat) :
    List Effect :=
  Effect.cncItemAlloc sizeofInt X1 ::
    match X1 with
    | none => [Effect.storeNull (wrapInt32 (2 * X0))]
    | some p =>
      [Effect.store p (wrapInt32 (2 * X0)),
       Effect.load p (wrapInt32 (2 * X0)),
       Effect.printf "just put %d as %d\n" [i, wrapInt32 (2 * X0)],
       Effect.cncPut_X p (wrapS64 (i + 1)) ctx]

/-! ## Main.c -/

/-- Modelled from the spec: how a launched graph ends, by normal completion,
in deadlock, or by abort. -/
inductive GraphOutcome where
  | completed
  | deadlock
  | abort
  deriving DecidableEq, Repr

/-- One call made by `cncMain`, in program order. -/
inductive MainCall (Args : Type) where
  /-- Call `SimpleDemand_create()`, which returned the context `ret`. -/
  | SimpleDemand_create (ret : Nat)
  /-- Call `SimpleDemand_launch(args, context)`; `none` is the null pointer. -/
  | SimpleDemand_launch (args : Option Args) (context : Nat)
  /-- Statement `CNC_SHUTDOWN_ON_FINISH(context);`. -/
  | CNC_SHUTDOWN_ON_FINISH (context : Nat)
  deriving DecidableEq, Repr

/-- What a run of `cncMain` does: its calls and the value of its `return`. -/
structure MainRun (Args : Type) where
  calls : List (MainCall Args)
  ret : Int

/-- The function `cncMain(argc, argv)`.  `context` is the pointer returned by
`SimpleDemand_create`, `outcome` is how the graph that is launched ends.  The
three runtime entry points are statements whose results the function does not
use, and each is taken to return control to it. -/
def cncMain (Args : Type) (argc : Int) (argv : List String) (context : Nat)
    (outcome : GraphOutcome) : MainRun Args :=
  { calls :=
      [MainCall.SimpleDemand_create context,
       MainCall.SimpleDemand_launch none context,
       MainCall.CNC_SHUTDOWN_ON_FINISH context],
    ret := 0 }

/-! ## Reading an effect list -/

/-- Is the effect a call `cncPrescribe_S`? -/
def Effect.isPrescribe : Effect → Bool
  | Effect.cncPrescribe_S _ _ => true
  | _ => false

/-- Is the effect a call `cncPut_X`? -/
def Effect.isPut : Effect → Bool
  | Effect.cncPut_X _ _ _ => true
  | _ => false

/-- Is the effect a call `printf`, the only way the user code reports anything? -/
def Effect.isReport : Effect → Bool
  | Effect.printf _ _ => true
  | _ => false

/-- Is the effect an assignment through the null pointer? -/
def Effect.isStoreNull : Effect → Bool
  | Effect.storeNull _ => true
  | _ => false

/-- Is the effect a call into the CnC runtime? -/
def Effect.isRuntimeCall : Effect → Bool
  | Effect.cncPrescribe_S _ _ => true
  | Effect.cncItemAlloc _ _ => true
  | Effect.cncPut_X _ _ _ => true
  | Effect.SimpleDemand_await _ => true
  | _ => false

/-- Is the effect an assignment to the buffer `p`? -/
def Effect.writes (p : Nat) : Effect → Bool
  | Effect.store b _ => decide (b = p)
  | _ => false

/-- Is the effect a read of the buffer `p`? -/
def Effect.reads (p : Nat) : Effect → Bool
  | Effect.load b _ => decide (b = p)
  | _ => false

/-- Is the effect a put of the buffer `p`? -/
def Effect.putsBuf (p : Nat) : Effect → Bool
  | Effect.cncPut_X b _ _ => decide (b = p)
  | _ => false

/-- Is the effect a read or an assignment of the buffer `p`? -/
def Effect.accesses (p : Nat) (e : Effect) : Bool := e.writes p || e.reads p

/-- Content of the buffer `p` in a list of buffer contents, newest first. -/
def contentOf (p : Nat) : List (Nat × Int) → Option Int
  | [] => none
  | (b, v) :: rest => if b = p then some v else contentOf p rest

/-- The items an effect list puts, oldest first: the tag, and the content the
buffer has at the moment of the put.  `mem` holds the assignments seen so far. -/
def itemsPutFrom (mem : List (Nat × Int)) : List Effect → List (Int × Option Int)
  | [] => []
  | Effect.store b v :: es => itemsPutFrom ((b, v) :: mem) es
  | Effect.cncPut_X b tag _ :: es => (tag, contentOf b mem) :: itemsPutFrom mem es
  | _ :: es => itemsPutFrom mem es

/-- The items an effect list puts, starting with no buffer written. -/
def itemsPut (es : List Effect) : List (Int × Option Int) := itemsPutFrom [] es

/-- The tags of the puts in an effect list, oldest first. -/
def putTags : List Effect → List Int
  | [] => []
  | Effect.cncPut_X _ tag _ :: es => tag :: putTags es
  | _ :: es => putTags es

/-! ## The runtime behind the entry points -/

/-- Modelled from the spec: a fatal condition of a run. -/
inductive Violation where
  /-- A second put for a tag that already has an item. -/
  | doublePut (tag : Int)
  /-- An assignment through the null pointer. -/
  | nullWrite
  deriving DecidableEq, Repr

/-- Modelled from the spec: the state of a graph context, of which the sources
hold only the callers.  `prescribed` lists the prescribed instances of `S`,
`completed` the instances that have run (oldest first), `mem` the payload
buffers (newest assignment first), `X` the item collection as tag and payload
buffer (newest first; the store keeps the buffer it is handed, without a copy),
`awaited` whether the finalizer is registered, and `nextBuf` the address the
next allocation returns. -/
structure Context where
  prescribed : List Int
  completed : List Int
  mem : List (Nat × Int)
  X : List (Int × Nat)
  awaited : Bool
  nextBuf : Nat
  deriving DecidableEq, Repr

/-- Modelled from the spec: the context after `create`, with nothing in it. -/
def Context.empty : Context :=
  { prescribed := [], completed := [], mem := [], X := [], awaited := false, nextBuf := 0 }

/-- Buffer of the item with tag `tag` in a collection. -/
def bufferOf (tag : Int) : List (Int × Nat) → Option Nat
  | [] => none
  | (t, b) :: rest => if t = tag then some b else bufferOf tag rest

/-- Modelled from the spec: non-blocking `get` on collection `X`. -/
def Context.getX (c : Context) (tag : Int) : Option Int :=
  match bufferOf tag c.X with
  | none => none
  | some b => contentOf b c.mem

/-- Modelled from the spec: what one effect of the user code does to the
context.  `prescribe` is idempotent, a put for a tag that already has an item
is the fatal double put, `await` registers the finalizer. -/
def Context.apply (c : Context) : Effect → Except Violation Context
  | Effect.cncPrescribe_S tag _ =>
    if tag ∈ c.prescribed then Except.ok c
    else Except.ok { c with prescribed := c.prescribed ++ [tag] }
  | Effect.cncItemAlloc _ _ => Except.ok { c with nextBuf := c.nextBuf + 1 }
  | Effect.store b v => Except.ok { c with mem := (b, v) :: c.mem }
  | Effect.storeNull _ => Except.error Violation.nullWrite
  | Effect.load _ _ => Except.ok c
  | Effect.printf _ _ => Except.ok c
  | Effect.cncPut_X b tag _ =>
    match bufferOf tag c.X with
    | some _ => Except.error (Violation.doublePut tag)
    | none => Except.ok { c with X := (tag, b) :: c.X }
  | Effect.SimpleDemand_await _ => Except.ok { c with awaited := true }

/-- Modelled from the spec: apply a list of effects in order, stopping at the
first violation. -/
def Context.run (c : Context) : List Effect → Except Violation Context
  | [] => Except.ok c
  | e :: es =>
    match c.apply e with
    | Except.ok c1 => c1.run es
    | Except.error v => Except.error v

/-- Modelled from the spec: `launch` runs the initializer on the fresh context;
the allocator hands out the next free buffer. -/
def launch {Args : Type} (args : Option Args) (ctx : Nat) : Except Violation Context :=
  Context.empty.run (SimpleDemand_cncInitialize args ctx (some Context.empty.nextBuf))

/-- Modelled from the spec: the firing rule.  `S(i)` may fire when it is
prescribed, has not run yet and its input `X[i]` is present; the result is
`none` when it may not fire.  Otherwise the step body runs on the value of
`X[i]` with second input `d`, on the next free buffer, and the instance is
marked complete. -/
def Context.fire (c : Context) (ctx : Nat) (i d : Int) : Option (Except Violation Context) :=
  if i ∈ c.prescribed ∧ i ∉ c.completed then
    match c.getX i with
    | none => none
    | some X0 =>
      match c.run (SimpleDemand_S i X0 d ctx (some c.nextBuf)) with
      | Except.ok c1 => some (Except.ok { c1 with completed := c1.completed ++ [i] })
      | Except.error v => some (Except.error v)
  else none

/-- Modelled from the spec: an execution fires the listed instances (tag and
second input) in order.  The result is `none` as soon as a listed instance may
not fire or a firing ends in a violation. -/
def Context.exec (c : Context) (ctx : Nat) : List (Int × Int) → Option Context
  | [] => some c
  | (i, d) :: rest =>
    match c.fire ctx i d with
    | some (Except.ok c1) => c1.exec ctx rest
    | _ => none

/-- One run of the step body: its tag, its two inputs, and what the
allocation returned to it. -/
structure StepRun where
  i : Int
  X0 : Int
  d : Int
  X1 : Option Nat

/-- The effects of the listed runs of the step body, one run after the other. -/
def stepEffects (ctx : Nat) : List StepRun → List Effect
  | [] => []
  | r :: rs => SimpleDemand_S r.i r.X0 r.d ctx r.X1 ++ stepEffects ctx rs

/-- The schedule that fires `S(0)`, ..., `S(9)` in ascending order, `S(j)` with
second input `ds j`. -/
def ascending (ds : Nat → Int) : List (Int × Int) :=
  (List.range 10).map (fun (j : Nat) => ((j : Int), ds j))

/-- The state after the initializer and the steps `S(0)`, ..., `S(k-1)`. -/
def chainState (k : Nat) : Context :=
  { prescribed := (List.range 10).map (fun (j : Nat) => (j : Int)),
    completed := (List.range k).map (fun (j : Nat) => (j : Int)),
    mem := ((List.range (k + 1)).map (fun (j : Nat) => (j, -(2 : Int) ^ j))).reverse,
    X := ((List.range (k + 1)).map (fun (j : Nat) => ((j : Int), j))).reverse,
    awaited := true,
    nextBuf := k + 1 }

/-! ## Helper lemmas -/

theorem prescribeLoop_zero (ctx : Nat) :
    prescribeLoop ctx 0 =
      [Effect.cncPrescribe_S 0 ctx, Effect.cncPrescribe_S 1 ctx, Effect.cncPrescribe_S 2 ctx,
       Effect.cncPrescribe_S 3 ctx, Effect.cncPrescribe_S 4 ctx, Effect.cncPrescribe_S 5 ctx,
       Effect.cncPrescribe_S 6 ctx, Effect.cncPrescribe_S 7 ctx, Effect.cncPrescribe_S 8 ctx,
       Effect.cncPrescribe_S 9 ctx] := by
  simp [prescribeLoop, wrapS64]

theorem wrapInt32_of_isInt32 (x : Int) (h : isInt32 x) : wrapInt32 x = x := by
  unfold isInt32 at h
  unfold wrapInt32
  omega

theorem wrapS64_of_isTag (x : Int) (h : isTag x) : wrapS64 x = x := by
  unfold isTag at h
  unfold wrapS64
  omega

theorem wrapInt32_double_iff (X0 : Int) :
    wrapInt32 (2 * X0) = 2 * X0 ↔ -1073741824 ≤ X0 ∧ X0 ≤ 1073741823 := by
  unfold wrapInt32
  omega

theorem initialize_effects {Args : Type} (args : Option Args) (ctx p : Nat) :
    SimpleDemand_cncInitialize args ctx (some p) =
      [Effect.cncPrescribe_S 0 ctx, Effect.cncPrescribe_S 1 ctx, Effect.cncPrescribe_S 2 ctx,
       Effect.cncPrescribe_S 3 ctx, Effect.cncPrescribe_S 4 ctx, Effect.cncPrescribe_S 5 ctx,
       Effect.cncPrescribe_S 6 ctx, Effect.cncPrescribe_S 7 ctx, Effect.cncPrescribe_S 8 ctx,
       Effect.cncPrescribe_S 9 ctx, Effect.cncItemAlloc sizeofInt (some p),
       Effect.store p (-1), Effect.cncPut_X p 0 ctx, Effect.SimpleDemand_await ctx] := by
  simp [SimpleDemand_cncInitialize, prescribeLoop_zero]

/-! ## The initializer and the step body, call by call -/

/-- C1: for every args record, the null one included, and every buffer `p`
that the allocation returns, the initializer issues exactly: `prescribe_S` for
the tags 0, 1, ..., 9 in this order, one item allocation, the assignment of -1
to the buffer, one put of that buffer into `X` at tag 0, and `await` last.  Its
runtime calls are these thirteen, and the one item it puts is -1 at tag 0. -/
theorem initialize_call_sequence {Args : Type} (args : Option Args) (ctx p : Nat) :
    SimpleDemand_cncInitialize args ctx (some p) =
      [Effect.cncPrescribe_S 0 ctx, Effect.cncPrescribe_S 1 ctx, Effect.cncPrescribe_S 2 ctx,
       Effect.cncPrescribe_S 3 ctx, Effect.cncPrescribe_S 4 ctx, Effect.cncPrescribe_S 5 ctx,
       Effect.cncPrescribe_S 6 ctx, Effect.cncPrescribe_S 7 ctx, Effect.cncPrescribe_S 8 ctx,
       Effect.cncPrescribe_S 9 ctx, Effect.cncItemAlloc sizeofInt (some p),
       Effect.store p (-1), Effect.cncPut_X p 0 ctx, Effect.SimpleDemand_await ctx]
    ∧ (SimpleDemand_cncInitialize args ctx (some p)).filter Effect.isRuntimeCall =
      [Effect.cncPrescribe_S 0 ctx, Effect.cncPrescribe_S 1 ctx, Effect.cncPrescribe_S 2 ctx,
       Effect.cncPrescribe_S 3 ctx, Effect.cncPrescribe_S 4 ctx, Effect.cncPrescribe_S 5 ctx,
       Effect.cncPrescribe_S 6 ctx, Effect.cncPrescribe_S 7 ctx, Effect.cncPrescribe_S 8 ctx,
       Effect.cncPrescribe_S 9 ctx, Effect.cncItemAlloc sizeofInt (some p),
       Effect.cncPut_X p 0 ctx, Effect.SimpleDemand_await ctx]
    ∧ itemsPut (SimpleDemand_cncInitialize args ctx (some p)) = [(0, some (-1))] := by
  rw [initialize_effects args ctx p]
  refine ⟨rfl, ?_, ?_⟩
  · simp [Effect.isRuntimeCall]
  · simp [itemsPut, itemsPutFrom, contentOf]

/-- C2, as stated, fails at the largest tag: there `i + 1` is not a tag, and
the step body puts its item at the smallest tag instead. -/
theorem S_put_tag_wraps_at_largest_tag :
    isTag 9223372036854775807 ∧ isInt32 (2 * 1) ∧
    itemsPut (SimpleDemand_S 9223372036854775807 1 0 0 (some 0)) =
      [(-9223372036854775808, some 2)] ∧
    itemsPut (SimpleDemand_S 9223372036854775807 1 0 0 (some 0)) ≠
      [(9223372036854775807 + 1, some (2 * 1))] := by
  decide

/-- C2 (amended): for every tag `i` other than the largest one, every `X0`
whose double is a 32-bit signed int, every `d` and every buffer the allocation
returns, the step body puts exactly one item, into `X`, at tag `i + 1`, with
value `2 * X0`; it prescribes nothing, and what it puts does not depend on `d`. -/
theorem S_puts_one_item (i X0 d : Int) (ctx p : Nat)
    (hi : isTag i) (hmax : i ≠ 9223372036854775807) (hX : isInt32 (2 * X0)) :
    (SimpleDemand_S i X0 d ctx (some p)).filter Effect.isPut = [Effect.cncPut_X p (i + 1) ctx]
    ∧ itemsPut (SimpleDemand_S i X0 d ctx (some p)) = [(i + 1, some (2 * X0))]
    ∧ (SimpleDemand_S i X0 d ctx (some p)).filter Effect.isPrescribe = []
    ∧ ∀ d2 : Int, itemsPut (SimpleDemand_S i X0 d2 ctx (some p)) =
        itemsPut (SimpleDemand_S i X0 d ctx (some p)) := by
  have ht : wrapS64 (i + 1) = i + 1 := by
    apply wrapS64_of_isTag
    unfold isTag at hi ⊢
    omega
  have hv : wrapInt32 (2 * X0) = 2 * X0 := wrapInt32_of_isInt32 _ hX
  refine ⟨?_, ?_, ?_, ?_⟩
  · simp [SimpleDemand_S, Effect.isPut, ht]
  · simp [SimpleDemand_S, itemsPut, itemsPutFrom, contentOf, ht, hv]
  · simp [SimpleDemand_S, Effect.isPrescribe]
  · intro d2
    rfl

/-- Witness of C2 (amended) at `i = 3`, `X0 = -8`, `d = 5`. -/
theorem S_puts_one_item_witness :
    (SimpleDemand_S 3 (-8) 5 1 (some 4)).filter Effect.isPut = [Effect.cncPut_X 4 (3 + 1) 1]
    ∧ itemsPut (SimpleDemand_S 3 (-8) 5 1 (some 4)) = [(3 + 1, some (2 * (-8)))]
    ∧ (SimpleDemand_S 3 (-8) 5 1 (some 4)).filter Effect.isPrescribe = []
    ∧ ∀ d2 : Int, itemsPut (SimpleDemand_S 3 (-8) d2 1 (some 4)) =
        itemsPut (SimpleDemand_S 3 (-8) 5 1 (some 4)) :=
  S_puts_one_item 3 (-8) 5 1 4 (by decide) (by decide) (by decide)

/-! ## Allocation failure -/

/-- C7, as stated, fails: when the allocation returns the null pointer, the
step body and the initializer both assign through it, and neither reports
anything. -/
theorem alloc_failure_not_propagated :
    ¬ ((SimpleDemand_S 0 1 0 0 none).any Effect.isReport = true
        ∧ (SimpleDemand_S 0 1 0 0 none).any Effect.isStoreNull = false
        ∧ (SimpleDemand_S 0 1 0 0 none).any Effect.isPut = false)
    ∧ ¬ ((SimpleDemand_cncInitialize (none : Option Unit) 0 none).any Effect.isReport = true
        ∧ (SimpleDemand_cncInitialize (none : Option Unit) 0 none).any Effect.isStoreNull = false
        ∧ (SimpleDemand_cncInitialize (none : Option Unit) 0 none).any Effect.isPut = false) := by
  constructor
  · decide
  · simp [SimpleDemand_cncInitialize, prescribeLoop_zero, Effect.isReport, Effect.isStoreNull]

/-- C7 (amended): when the allocation returns the null pointer, neither
producer tests it.  The step body goes from the allocation straight to the
assignment of `2 * X0` through the null pointer; the initializer does the same
with -1, after its ten prescriptions.  Up to that assignment nothing is
reported and no item is put. -/
theorem alloc_failure_unchecked {Args : Type} (args : Option Args) (i X0 d : Int) (ctx : Nat) :
    SimpleDemand_S i X0 d ctx none =
      [Effect.cncItemAlloc sizeofInt none, Effect.storeNull (wrapInt32 (2 * X0))]
    ∧ SimpleDemand_cncInitialize args ctx none =
      prescribeLoop ctx 0 ++ [Effect.cncItemAlloc sizeofInt none, Effect.storeNull (-1)]
    ∧ (SimpleDemand_S i X0 d ctx none).any Effect.isReport = false
    ∧ (SimpleDemand_S i X0 d ctx none).any Effect.isPut = false
    ∧ (SimpleDemand_cncInitialize args ctx none).any Effect.isReport = false
    ∧ (SimpleDemand_cncInitialize args ctx none).any Effect.isPut = false := by
  refine ⟨rfl, rfl, ?_, ?_, ?_, ?_⟩
  · simp [SimpleDemand_S, Effect.isReport]
  · simp [SimpleDemand_S, Effect.isPut]
  · simp [SimpleDemand_cncInitialize, prescribeLoop_zero, Effect.isReport]
  · simp [SimpleDemand_cncInitialize, prescribeLoop_zero, Effect.isPut]

/-! ## The driver -/

/-- C8, as stated, fails: on a graph that ends in deadlock, and on one that is
aborted, `cncMain` still returns 0. -/
theorem cncMain_returns_zero_on_deadlock :
    ¬ ((cncMain Unit 1 ["SimpleDemand"] 0 GraphOutcome.deadlock).ret ≠ 0)
    ∧ ¬ ((cncMain Unit 1 ["SimpleDemand"] 0 GraphOutcome.abort).ret ≠ 0) := by
  decide

/-- C8 (amended): `cncMain` creates one context, launches the graph on it with
the null args record, and shuts down on finish on that same context, in that
order; the value it returns is 0 whatever the outcome of the graph. -/
theorem cncMain_calls_and_return (Args : Type) (argc : Int) (argv : List String)
    (context : Nat) (outcome : GraphOutcome) :
    (cncMain Args argc argv context outcome).calls =
      [MainCall.SimpleDemand_create context,
       MainCall.SimpleDemand_launch none context,
       MainCall.CNC_SHUTDOWN_ON_FINISH context]
    ∧ (cncMain Args argc argv context outcome).ret = 0 :=
  ⟨rfl, rfl⟩

/-! ## Ownership of the payload -/

/-- C9: in the initializer and in the step body, the allocated buffer `p` is
assigned exactly once, is put exactly once, the assignment comes before the
put, and no read or assignment of `p` follows the put; the content of the
buffer at the put is the value assigned, -1 for the initializer and the `int`
value of `2 * X0` for the step body, which is `2 * X0` itself whenever that
is a 32-bit signed int. -/
theorem payload_untouched_after_put {Args : Type} (args : Option Args) (i X0 d : Int)
    (ctx p : Nat) :
    ((SimpleDemand_cncInitialize args ctx (some p)).countP (Effect.writes p) = 1
      ∧ (SimpleDemand_cncInitialize args ctx (some p)).countP (Effect.putsBuf p) = 1
      ∧ (SimpleDemand_cncInitialize args ctx (some p)).findIdx (Effect.writes p) <
          (SimpleDemand_cncInitialize args ctx (some p)).findIdx (Effect.putsBuf p)
      ∧ ((SimpleDemand_cncInitialize args ctx (some p)).drop
          ((SimpleDemand_cncInitialize args ctx (some p)).findIdx (Effect.putsBuf p) + 1)).any
            (Effect.accesses p) = false
      ∧ itemsPut (SimpleDemand_cncInitialize args ctx (some p)) = [(0, some (-1))])
    ∧ ((SimpleDemand_S i X0 d ctx (some p)).countP (Effect.writes p) = 1
      ∧ (SimpleDemand_S i X0 d ctx (some p)).countP (Effect.putsBuf p) = 1
      ∧ (SimpleDemand_S i X0 d ctx (some p)).findIdx (Effect.writes p) <
          (SimpleDemand_S i X0 d ctx (some p)).findIdx (Effect.putsBuf p)
      ∧ ((SimpleDemand_S i X0 d ctx (some p)).drop
          ((SimpleDemand_S i X0 d ctx (some p)).findIdx (Effect.putsBuf p) + 1)).any
            (Effect.accesses p) = false
      ∧ itemsPut (SimpleDemand_S i X0 d ctx (some p)) =
          [(wrapS64 (i + 1), some (wrapInt32 (2 * X0)))]
      ∧ (isInt32 (2 * X0) → itemsPut (SimpleDemand_S i X0 d ctx (some p)) =
          [(wrapS64 (i + 1), some (2 * X0))])) := by
  constructor
  · rw [initialize_effects args ctx p]
    simp [List.countP_cons, List.findIdx_cons, Effect.writes, Effect.putsBuf, Effect.accesses,
      Effect.reads, itemsPut, itemsPutFrom, contentOf]
  · refine ⟨?_, ?_, ?_, ?_, ?_, ?_⟩
    · simp [SimpleDemand_S, List.countP_cons, Effect.writes]
    · simp [SimpleDemand_S, List.countP_cons, Effect.putsBuf]
    · simp [SimpleDemand_S, List.findIdx_cons, Effect.writes, Effect.putsBuf]
    · simp [SimpleDemand_S, List.findIdx_cons, Effect.writes, Effect.putsBuf, Effect.accesses,
        Effect.reads]
    · simp [SimpleDemand_S, itemsPut, itemsPutFrom, contentOf]
    · intro h
      simp [SimpleDemand_S, itemsPut, itemsPutFrom, contentOf, wrapInt32_of_isInt32 _ h]

/-- Witness of C9 at the initializer with the null args record and at the step
body with `i = 3`, `X0 = -8`, `d = 5`, where `2 * X0` is a 32-bit signed int. -/
theorem payload_untouched_after_put_witness :
    isInt32 (2 * (-8)) ∧
    itemsPut (SimpleDemand_S 3 (-8) 5 1 (some 4)) = [(wrapS64 (3 + 1), some (2 * (-8)))] :=
  ⟨by decide,
   (payload_untouched_after_put (none : Option Unit) 3 (-8) 5 1 4).2.2.2.2.2.2 (by decide)⟩

/-! ## Executions of the example -/

theorem launch_eq {Args : Type} (args : Option Args) (ctx : Nat) :
    launch args ctx = Except.ok (chainState 0) := by
  rw [launch, initialize_effects args ctx _]
  rfl

theorem fire_chainState (k : Nat) (hk : k ≤ 10) (ctx : Nat) (i d : Int) :
    (chainState k).fire ctx i d =
      if i = (k : Int) ∧ k < 10 then some (Except.ok (chainState (k + 1))) else none := by
  by_cases hi : i = (k : Int)
  · subst hi
    interval_cases k <;> rfl
  · rw [if_neg (fun h => hi h.1)]
    by_cases hp : i ∈ (chainState k).prescribed
    · have hp2 : ∃ j : Nat, j < 10 ∧ (j : Int) = i := by
        simpa [chainState] using hp
      obtain ⟨j, hj, rfl⟩ := hp2
      interval_cases k <;> interval_cases j <;> first | exact absurd rfl hi | rfl
    · simp [Context.fire, hp]

theorem exec_chainState (ctx : Nat) :
    ∀ (sched : List (Int × Int)) (k : Nat) (c : Context), k ≤ 10 →
      (chainState k).exec ctx sched = some c →
      c = chainState (k + sched.length) ∧ k + sched.length ≤ 10 ∧
        sched.map Prod.fst = (List.range' k sched.length).map (fun (j : Nat) => (j : Int)) := by
  intro sched
  induction sched with
  | nil =>
    intro k c hk h
    simp only [Context.exec, Option.some.injEq] at h
    simp [h.symm, hk]
  | cons a rest ih =>
    intro k c hk h
    obtain ⟨i, d⟩ := a
    simp only [Context.exec, fire_chainState k hk] at h
    by_cases hc : i = (k : Int) ∧ k < 10
    · rw [if_pos hc] at h
      simp only at h
      obtain ⟨h1, h2, h3⟩ := ih (k + 1) c hc.2 h
      refine ⟨?_, ?_, ?_⟩
      · rw [h1]
        congr 1
        simp only [List.length_cons]
        omega
      · simp only [List.length_cons]
        omega
      · simp [List.range', h3, hc.1]
    · rw [if_neg hc] at h
      simp at h

theorem exec_from_launch (ctx : Nat) (sched : List (Int × Int)) (c : Context)
    (h : (chainState 0).exec ctx sched = some c) :
    c = chainState sched.length ∧ sched.length ≤ 10 ∧
      sched.map Prod.fst = (List.range sched.length).map (fun (j : Nat) => (j : Int)) := by
  obtain ⟨h1, h2, h3⟩ := exec_chainState ctx sched 0 c (by omega) h
  rw [Nat.zero_add] at h1 h2
  refine ⟨h1, h2, ?_⟩
  rw [h3, List.range_eq_range']

theorem exec_ascending (ctx : Nat) (ds : Nat → Int) :
    (chainState 0).exec ctx (ascending ds) = some (chainState 10) := by
  rfl

theorem getX_chainState (n : Nat) (hn : n ≤ 10) (k : Nat) (hk : k ≤ n) :
    (chainState n).getX (k : Int) = some (-(2 : Int) ^ k) := by
  interval_cases n <;> interval_cases k <;> rfl

theorem contentOf_mem (p : Nat) (v : Int) :
    ∀ mem : List (Nat × Int), contentOf p mem = some v → v ∈ mem.map Prod.snd := by
  intro mem
  induction mem with
  | nil => intro h; simp [contentOf] at h
  | cons a rest ih =>
    obtain ⟨b, w⟩ := a
    intro h
    simp only [contentOf] at h
    by_cases hb : b = p
    · rw [if_pos hb] at h
      simp only [Option.some.injEq] at h
      simp [h]
    · rw [if_neg hb] at h
      simp [ih h]

theorem getX_mem (c : Context) (t v : Int) (h : c.getX t = some v) :
    v ∈ c.mem.map Prod.snd := by
  unfold Context.getX at h
  cases hb : bufferOf t c.X with
  | none => rw [hb] at h; simp at h
  | some b => rw [hb] at h; exact contentOf_mem b v c.mem h

theorem chainState_values (n : Nat) (hn : n ≤ 10) :
    ∀ v ∈ (chainState n).mem.map Prod.snd, -1073741824 ≤ v ∧ v ≤ 1073741823 ∧ v ≠ 9 := by
  interval_cases n <;> decide

theorem perm_length_ten (l : List Int) (h : l.Perm [0, 1, 2, 3, 4, 5, 6, 7, 8, 9]) :
    l.length = 10 := by
  rw [h.length_eq]
  rfl

theorem getX_ten_absent (n : Nat) (hn : n < 10) : (chainState n).getX 10 = none := by
  interval_cases n <;> rfl

/-- C3: after the initializer, the ascending schedule `S(0)`, ..., `S(9)` runs
to the end for every choice of second inputs; and every execution that fires
each of `S(0)`, ..., `S(9)` exactly once, each on the value of its `X[i]`,
leaves `X[k] = -(2^k)` for `0 ≤ k ≤ 10`, so `X[10] = -1024`, and no item with
the value 9. -/
theorem chain_values {Args : Type} (args : Option Args) (ctx : Nat) (c0 : Context)
    (h0 : launch args ctx = Except.ok c0) :
    (∀ ds : Nat → Int, ∃ c, c0.exec ctx (ascending ds) = some c)
    ∧ ∀ (sched : List (Int × Int)) (c : Context), c0.exec ctx sched = some c →
        (sched.map Prod.fst).Perm [0, 1, 2, 3, 4, 5, 6, 7, 8, 9] →
        (∀ k : Nat, k ≤ 10 → c.getX (k : Int) = some (-(2 : Int) ^ k))
        ∧ c.getX 10 = some (-1024)
        ∧ ∀ t : Int, c.getX t ≠ some 9 := by
  rw [launch_eq] at h0
  cases h0
  refine ⟨fun ds => ⟨chainState 10, exec_ascending ctx ds⟩, ?_⟩
  intro sched c h hperm
  obtain ⟨hc, -, -⟩ := exec_from_launch ctx sched c h
  have hlen : sched.length = 10 := by
    have := perm_length_ten _ hperm
    simpa using this
  rw [hlen] at hc
  subst hc
  refine ⟨fun k hk => getX_chainState 10 (Nat.le_refl _) k hk, rfl, ?_⟩
  intro t ht
  exact (chainState_values 10 (Nat.le_refl _) 9 (getX_mem _ t 9 ht)).2.2 rfl

/-- Witness of C3: the ascending schedule with every second input 0. -/
theorem chain_values_witness :
    launch (none : Option Unit) 0 = Except.ok (chainState 0)
    ∧ (chainState 0).exec 0 (ascending (fun _ => 0)) = some (chainState 10)
    ∧ ((ascending (fun _ => 0)).map Prod.fst).Perm [0, 1, 2, 3, 4, 5, 6, 7, 8, 9]
    ∧ (chainState 10).getX 10 = some (-1024) :=
  ⟨launch_eq none 0, rfl, List.Perm.refl _,
   ((chain_values (none : Option Unit) 0 (chainState 0) (launch_eq none 0)).2
      (ascending (fun _ => 0)) (chainState 10) rfl (List.Perm.refl _)).2.1⟩

/-- C4 on the code: when the example has run to completion and the finalizer
is handed `X[10]`, the text it prints is `final answer is -1024, expected 9.`
and not `final answer is 9, expected 9.` -/
theorem finalize_prints_chain_result {Args : Type} (args : Option Args) (ctx : Nat)
    (c0 : Context) (h0 : launch args ctx = Except.ok c0)
    (sched : List (Int × Int)) (c : Context) (h : c0.exec ctx sched = some c)
    (hall : (sched.map Prod.fst).Perm [0, 1, 2, 3, 4, 5, 6, 7, 8, 9]) :
    ∃ X : Int, c.getX 10 = some X
      ∧ SimpleDemand_cncFinalize X ctx = "final answer is -1024, expected 9.\n"
      ∧ SimpleDemand_cncFinalize X ctx ≠ "final answer is 9, expected 9.\n" := by
  rw [launch_eq] at h0
  cases h0
  obtain ⟨hc, -, -⟩ := exec_from_launch ctx sched c h
  have hlen : sched.length = 10 := by
    have := perm_length_ten _ hall
    simpa using this
  rw [hlen] at hc
  subst hc
  refine ⟨-1024, rfl, ?_, ?_⟩
  · show SimpleDemand_cncFinalize (-1024) 0 = "final answer is -1024, expected 9.\n"
    decide
  · show SimpleDemand_cncFinalize (-1024) 0 ≠ "final answer is 9, expected 9.\n"
    decide

/-- Witness of C4 on the code: the ascending schedule with every second input 0. -/
theorem finalize_prints_chain_result_witness :
    launch (none : Option Unit) 0 = Except.ok (chainState 0)
    ∧ (chainState 0).exec 0 (ascending (fun _ => 0)) = some (chainState 10)
    ∧ ∃ X : Int, (chainState 10).getX 10 = some X
      ∧ SimpleDemand_cncFinalize X 0 = "final answer is -1024, expected 9.\n"
      ∧ SimpleDemand_cncFinalize X 0 ≠ "final answer is 9, expected 9.\n" :=
  ⟨launch_eq none 0, rfl,
   finalize_prints_chain_result (none : Option Unit) 0 (chainState 0) (launch_eq none 0)
     (ascending (fun _ => 0)) (chainState 10) rfl (List.Perm.refl _)⟩

/-- C6: under the firing rule, every execution from the state the initializer
leaves fires `S(0)`, `S(1)`, ... in ascending order, each at most once and at
most ten instances; no firing ends in a violation; while fewer than ten have
run the next one can fire; when nothing can fire any more, exactly
`S(0)`, ..., `S(9)` have run, every prescribed instance is complete and the
finalizer input `X[10]` is present; and `X[10]` is present only when all ten
have run. -/
theorem executions_fire_in_ascending_order {Args : Type} (args : Option Args) (ctx : Nat)
    (c0 : Context) (h0 : launch args ctx = Except.ok c0)
    (sched : List (Int × Int)) (c : Context) (h : c0.exec ctx sched = some c) :
    sched.map Prod.fst = (List.range sched.length).map (fun (j : Nat) => (j : Int))
    ∧ sched.length ≤ 10
    ∧ c.completed = sched.map Prod.fst
    ∧ (∀ (i d : Int) (v : Violation), c.fire ctx i d ≠ some (Except.error v))
    ∧ (sched.length < 10 →
        ∀ d : Int, ∃ c1, c.fire ctx (sched.length : Int) d = some (Except.ok c1))
    ∧ ((∀ i d : Int, c.fire ctx i d = none) →
        sched.map Prod.fst = [0, 1, 2, 3, 4, 5, 6, 7, 8, 9]
        ∧ c.completed = c.prescribed ∧ (c.getX 10).isSome = true)
    ∧ ((c.getX 10).isSome = true → c.completed = [0, 1, 2, 3, 4, 5, 6, 7, 8, 9]) := by
  rw [launch_eq] at h0
  cases h0
  obtain ⟨hc, hlen, hfst⟩ := exec_from_launch ctx sched c h
  subst hc
  refine ⟨hfst, hlen, ?_, ?_, ?_, ?_, ?_⟩
  · rw [hfst]
    rfl
  · intro i d v
    rw [fire_chainState _ hlen]
    split_ifs <;> simp
  · intro hlt d
    refine ⟨chainState (sched.length + 1), ?_⟩
    rw [fire_chainState _ hlen, if_pos ⟨rfl, hlt⟩]
  · intro hnone
    have hten : sched.length = 10 := by
      by_contra hne
      have hlt : sched.length < 10 := by omega
      have := hnone (sched.length : Int) 0
      rw [fire_chainState _ hlen, if_pos ⟨rfl, hlt⟩] at this
      simp at this
    rw [hfst, hten]
    exact ⟨rfl, rfl, rfl⟩
  · intro hpres
    have hten : sched.length = 10 := by
      by_contra hne
      have hlt : sched.length < 10 := by omega
      rw [getX_ten_absent _ hlt] at hpres
      simp at hpres
    rw [hten]
    rfl

/-- Witness of C6: the execution that fires `S(0)`, ..., `S(9)` with every
second input 0. -/
theorem executions_fire_in_ascending_order_witness :
    launch (none : Option Unit) 0 = Except.ok (chainState 0)
    ∧ (chainState 0).exec 0 (ascending (fun _ => 0)) = some (chainState 10)
    ∧ (ascending (fun _ => 0)).map Prod.fst =
        (List.range (ascending (fun _ => 0)).length).map (fun (j : Nat) => (j : Int))
    ∧ (ascending (fun _ => 0)).length ≤ 10 :=
  ⟨launch_eq none 0, rfl,
   (executions_fire_in_ascending_order (none : Option Unit) 0 (chainState 0) (launch_eq none 0)
      (ascending (fun _ => 0)) (chainState 10) rfl).1,
   (executions_fire_in_ascending_order (none : Option Unit) 0 (chainState 0) (launch_eq none 0)
      (ascending (fun _ => 0)) (chainState 10) rfl).2.1⟩

/-! ## Single assignment -/

theorem putTags_append (a b : List Effect) : putTags (a ++ b) = putTags a ++ putTags b := by
  induction a with
  | nil => rfl
  | cons e es ih => cases e <;> simp [putTags, ih]

theorem putTags_initialize {Args : Type} (args : Option Args) (ctx : Nat) (X : Option Nat) :
    putTags (SimpleDemand_cncInitialize args ctx X) = if X.isSome then [0] else [] := by
  cases X <;> simp [SimpleDemand_cncInitialize, prescribeLoop_zero, putTags]

theorem putTags_S (i X0 d : Int) (ctx : Nat) (X1 : Option Nat) :
    putTags (SimpleDemand_S i X0 d ctx X1) = if X1.isSome then [wrapS64 (i + 1)] else [] := by
  cases X1 <;> simp [SimpleDemand_S, putTags]

theorem putTags_stepEffects_sublist (ctx : Nat) :
    ∀ runs : List StepRun, (∀ r ∈ runs, 0 ≤ r.i ∧ r.i ≤ 9) →
      (putTags (stepEffects ctx runs)).Sublist (runs.map (fun r => r.i + 1)) := by
  intro runs
  induction runs with
  | nil => intro _; exact List.Sublist.refl _
  | cons r rs ih =>
    intro h
    have hr : 0 ≤ r.i ∧ r.i ≤ 9 := h r (List.mem_cons_self _ _)
    have hw : wrapS64 (r.i + 1) = r.i + 1 := by
      unfold wrapS64
      omega
    have ih2 := ih (fun q hq => h q (List.mem_cons_of_mem _ hq))
    simp only [stepEffects, putTags_append, putTags_S, List.map_cons, hw]
    by_cases hs : r.X1.isSome = true
    · rw [if_pos hs]
      exact List.Sublist.cons₂ _ ih2
    · rw [if_neg hs]
      exact List.Sublist.cons _ ih2

theorem putTags_run_nodup {Args : Type} (args : Option Args) (ctx : Nat) (X : Option Nat)
    (runs : List StepRun) (honce : (runs.map StepRun.i).Nodup)
    (hpres : ∀ r ∈ runs, 0 ≤ r.i ∧ r.i ≤ 9) :
    (putTags (SimpleDemand_cncInitialize args ctx X ++ stepEffects ctx runs)).Nodup := by
  have hsub := putTags_stepEffects_sublist ctx runs hpres
  have hnd : (runs.map (fun r => r.i + 1)).Nodup := by
    have : runs.map (fun r => r.i + 1) = (runs.map StepRun.i).map (fun t => t + 1) := by
      simp [List.map_map, Function.comp]
    rw [this]
    exact honce.map (fun a b hab => by simpa using hab)
  have hzero : (0 : Int) ∉ runs.map (fun r => r.i + 1) := by
    intro hmem
    obtain ⟨r, hr, he⟩ := List.mem_map.mp hmem
    have := hpres r hr
    omega
  rw [putTags_append, putTags_initialize]
  by_cases hX : X.isSome = true
  · rw [if_pos hX]
    simp only [List.singleton_append, List.nodup_cons]
    exact ⟨fun hm => hzero (hsub.subset hm), hnd.sublist hsub⟩
  · rw [if_neg hX]
    simpa using hnd.sublist hsub

theorem run_fresh_tags :
    ∀ (es : List Effect) (c : Context), (putTags es).Nodup →
      (∀ t ∈ putTags es, bufferOf t c.X = none) →
      (∃ c1, c.run es = Except.ok c1) ∨ c.run es = Except.error Violation.nullWrite := by
  intro es
  induction es with
  | nil =>
    intro c _ _
    exact Or.inl ⟨c, rfl⟩
  | cons e es ih =>
    intro c hnd hfresh
    cases e with
    | cncPut_X b tag ctx =>
      have hb : bufferOf tag c.X = none := hfresh tag (by simp [putTags])
      simp only [putTags, List.nodup_cons] at hnd
      simp only [Context.run, Context.apply, hb]
      apply ih _ hnd.2
      intro t ht
      have hne : tag ≠ t := fun h => hnd.1 (h ▸ ht)
      simp only [bufferOf]
      rw [if_neg hne]
      exact hfresh t (by simp [putTags, ht])
    | storeNull v =>
      right
      rfl
    | cncPrescribe_S tag ctx =>
      simp only [Context.run, Context.apply]
      split_ifs <;> exact ih _ hnd hfresh
    | cncItemAlloc size ret =>
      simp only [Context.run, Context.apply]
      exact ih _ hnd hfresh
    | store b v =>
      simp only [Context.run, Context.apply]
      exact ih _ hnd hfresh
    | load b v =>
      simp only [Context.run, Context.apply]
      exact ih _ hnd hfresh
    | printf format fargs =>
      simp only [Context.run, Context.apply]
      exact ih _ hnd hfresh
    | SimpleDemand_await ctx =>
      simp only [Context.run, Context.apply]
      exact ih _ hnd hfresh

/-- C5: take the initializer once and then any runs of the step body at
pairwise distinct tags from 0 to 9, on any inputs and whatever the allocations
return.  The tags put into `X` are pairwise distinct: each is 0 or `i + 1` for
one of the runs, none occurs twice, and the store never raises a double put
on this sequence. -/
theorem single_assignment {Args : Type} (args : Option Args) (ctx : Nat) (X : Option Nat)
    (runs : List StepRun) (honce : (runs.map StepRun.i).Nodup)
    (hpres : ∀ r ∈ runs, 0 ≤ r.i ∧ r.i ≤ 9) :
    (putTags (SimpleDemand_cncInitialize args ctx X ++ stepEffects ctx runs)).Nodup
    ∧ (∀ t : Int,
        (putTags (SimpleDemand_cncInitialize args ctx X ++ stepEffects ctx runs)).count t ≤ 1)
    ∧ (∀ t ∈ putTags (SimpleDemand_cncInitialize args ctx X ++ stepEffects ctx runs),
        t = 0 ∨ ∃ r ∈ runs, t = r.i + 1)
    ∧ (∀ t : Int,
        Context.empty.run (SimpleDemand_cncInitialize args ctx X ++ stepEffects ctx runs) ≠
          Except.error (Violation.doublePut t)) := by
  have hnd := putTags_run_nodup args ctx X runs honce hpres
  refine ⟨hnd, fun t => List.nodup_iff_count_le_one.mp hnd t, ?_, ?_⟩
  · intro t ht
    rw [putTags_append, putTags_initialize, List.mem_append] at ht
    rcases ht with ht | ht
    · left
      by_cases hX : X.isSome = true
      · rw [if_pos hX] at ht
        simpa using ht
      · rw [if_neg hX] at ht
        simp at ht
    · right
      have := (putTags_stepEffects_sublist ctx runs hpres).subset ht
      obtain ⟨r, hr, he⟩ := List.mem_map.mp this
      exact ⟨r, hr, he.symm⟩
  · intro t
    rcases run_fresh_tags _ Context.empty hnd (fun _ _ => rfl) with ⟨c1, h1⟩ | h1
    · rw [h1]
      simp
    · rw [h1]
      simp

/-- Witness of C5: the initializer, then `S(3)` on -8 and `S(0)` on -1. -/
theorem single_assignment_witness :
    ([3, 0] : List Int).Nodup
    ∧ (putTags (SimpleDemand_cncInitialize (none : Option Unit) 0 (some 0) ++
        stepEffects 0 [StepRun.mk 3 (-8) 0 (some 1), StepRun.mk 0 (-1) 0 (some 2)])).Nodup :=
  ⟨by decide,
   (single_assignment (none : Option Unit) 0 (some 0)
      [StepRun.mk 3 (-8) 0 (some 1), StepRun.mk 0 (-1) 0 (some 2)] (by decide)
      (by decide)).1⟩

/-! ## Overflow of the doubling -/

/-- C10: with `int` arithmetic wrapping modulo 2^32, the value the step body
puts is the mathematical `2 * X0` exactly when `-2^30 ≤ X0 ≤ 2^30 - 1`; and in
every execution of the example, `X[k] = -(2^k)` for each item put so far, and
every item in `X`, hence every input of a step, lies in that range, so its
doubling does not overflow. -/
theorem doubling_exact_iff_in_range {Args : Type} (args : Option Args) (ctx : Nat)
    (c0 : Context) (h0 : launch args ctx = Except.ok c0) :
    (∀ (i X0 d : Int) (p : Nat),
        (itemsPut (SimpleDemand_S i X0 d ctx (some p))).map Prod.snd = [some (2 * X0)] ↔
          -1073741824 ≤ X0 ∧ X0 ≤ 1073741823)
    ∧ ∀ (sched : List (Int × Int)) (c : Context), c0.exec ctx sched = some c →
        (∀ k : Nat, k ≤ sched.length → c.getX (k : Int) = some (-(2 : Int) ^ k))
        ∧ ∀ t X0 : Int, c.getX t = some X0 →
            -1073741824 ≤ X0 ∧ X0 ≤ 1073741823 ∧ wrapInt32 (2 * X0) = 2 * X0 := by
  rw [launch_eq] at h0
  cases h0
  constructor
  · intro i X0 d p
    rw [← wrapInt32_double_iff]
    simp [SimpleDemand_S, itemsPut, itemsPutFrom, contentOf]
  · intro sched c h
    obtain ⟨hc, hlen, -⟩ := exec_from_launch ctx sched c h
    subst hc
    refine ⟨fun k hk => getX_chainState _ hlen k hk, ?_⟩
    intro t X0 ht
    have hv := chainState_values _ hlen X0 (getX_mem _ t X0 ht)
    exact ⟨hv.1, hv.2.1, (wrapInt32_double_iff X0).mpr ⟨hv.1, hv.2.1⟩⟩

/-- Witness of C10: the execution that fires `S(0)`, ..., `S(9)` with every
second input 0, read at `X[9] = -512`. -/
theorem doubling_exact_iff_in_range_witness :
    launch (none : Option Unit) 0 = Except.ok (chainState 0)
    ∧ (chainState 0).exec 0 (ascending (fun _ => 0)) = some (chainState 10)
    ∧ (chainState 10).getX 9 = some (-512)
    ∧ (-1073741824 ≤ (-512 : Int) ∧ (-512 : Int) ≤ 1073741823
        ∧ wrapInt32 (2 * (-512)) = 2 * (-512)) :=
  ⟨launch_eq none 0, rfl, rfl,
   ((doubling_exact_iff_in_range (none : Option Unit) 0 (chainState 0) (launch_eq none 0)).2
      (ascending (fun _ => 0)) (chainState 10) rfl).2 9 (-512) rfl⟩

end SimpleDemand
